import Mathlib

/-!
Shallow embedding of the core of `src/index.cjs` (a TikTok video downloader)
and proofs about it.

The embedding models:
* candidate extraction and priority ranking (`findBestVideoUrl`, lines 72-123),
* the stable sort by priority and the probe loop (lines 126-154),
* the `playAddr` fallback (lines 156-167),
* variant planning (`tryMultipleDownloads`, lines 204-229),
* per-variant download, artifact-size validation and aggregation
  (lines 231-263 together with `downloadVideo`, lines 305-361) over an
  explicit network oracle and an explicit file-system state,
* the `run` step that reports `AllDownloadsFailed` (lines 378-380).

JavaScript strings are Lean `String`s; the filesystem is an association
list from paths to byte sizes; network behaviour is an oracle
`String → NetEvent`.  General recursion through HTTP redirects is
embedded with explicit fuel: a result of `none` means the recursion did
not terminate within the given fuel.
-/

/-- A `&`-style replace-all over character lists, mirroring the
JavaScript global-regex replace `url.replace(/\\u0026/g, '&')` and
`url.replace(/watermark=1/g, 'watermark=0')`.  Fuel is the length of the
subject string; each step consumes at least one character when the
pattern is non-empty, so the fuel is sufficient. -/
def replaceAllAux (pat rep : List Char) : Nat → List Char → List Char
  | 0, s => s
  | fuel + 1, s =>
    match s with
    | [] => []
    | c :: rest =>
      if pat.isPrefixOf s ∧ pat ≠ [] then
        rep ++ replaceAllAux pat rep fuel (s.drop pat.length)
      else
        c :: replaceAllAux pat rep fuel rest

/-- Replace every (non-overlapping, leftmost-first) occurrence of `pat` in
`s` by `rep`, as the JavaScript global regex replace does. -/
def replaceAll (s pat rep : String) : String :=
  ⟨replaceAllAux pat.data rep.data s.data.length s.data⟩

/-- Replace only the first occurrence of `pat`, as the JavaScript
`String.prototype.replace` with a plain-string pattern does
(`filename.replace('.mp4', '')`, line 238). -/
def replaceFirstAux (pat rep : List Char) : List Char → List Char
  | [] => []
  | c :: rest =>
    if pat.isPrefixOf (c :: rest) ∧ pat ≠ [] then
      rep ++ (c :: rest).drop pat.length
    else
      c :: replaceFirstAux pat rep rest

/-- String version of `replaceFirstAux`. -/
def replaceFirst (s pat rep : String) : String :=
  ⟨replaceFirstAux pat.data rep.data s.data⟩

/-- Substring test over character lists, mirroring JavaScript
`String.prototype.includes`. -/
def containsAux (pat : List Char) : List Char → Bool
  | [] => pat.isEmpty
  | c :: rest => pat.isPrefixOf (c :: rest) || containsAux pat rest

/-- Substring test on strings (JavaScript
`videoInfo.originalUrl.includes('watermark=1')`, line 221). -/
def containsSub (s pat : String) : Bool :=
  containsAux pat.data s.data

/-- Normalisation applied before probing and before returning a URL:
`source.url.replace(/\\u0026/g, '&')` (lines 138 and 161).  The pattern
is the six-character literal text backslash-u-0-0-2-6. -/
def cleanUrl (u : String) : String :=
  replaceAll u "\\u0026" "&"

/-- The `bitrate.PlayAddr` sub-object of a bitrate entry: the code reads
`bitrate.PlayAddr.UrlList` (line 107). -/
structure BitratePlayAddr where
  UrlList : Option (List String)
deriving DecidableEq, Repr

/-- One entry of `videoData.video.bitrateInfo` (lines 105-117). -/
structure BitrateEntry where
  PlayAddr : Option BitratePlayAddr
  QualityType : Option Nat
deriving DecidableEq, Repr

/-- The `videoData.video` sub-object, with the four fields the extractor
reads (lines 78, 87, 96, 105).  A `none` models an absent field. -/
structure VideoMeta where
  downloadAddr : Option String
  playAddrH264 : Option String
  playAddr : Option String
  bitrateInfo : Option (List BitrateEntry)
deriving DecidableEq, Repr

/-- The metadata object handed to `findBestVideoUrl`; only its `video`
field is read (line 76). -/
structure VideoData where
  video : Option VideoMeta
deriving DecidableEq, Repr

/-- One candidate pushed onto `videoSources` (lines 79-114).  The
JavaScript object carries `url`, `type`, `priority` and (for bitrate
candidates) `quality`; for the index pair the `type` string itself is
the tag `bitrateInfo[i][j]`. -/
structure Source where
  url : String
  type : String
  priority : Nat
  quality : Option Nat := none
deriving DecidableEq, Repr

/-- JavaScript truthiness of an optional string field: an absent field
and the empty string are both falsy (`if (videoData.video.downloadAddr)`
and friends). -/
def truthyStr : Option String → Bool
  | none => false
  | some s => !s.isEmpty

/-- The candidate tag for the mirror `j` of bitrate entry `i`:
the template literal `bitrateInfo[${index}][${urlIndex}]` (line 111). -/
def bitrateTag (i j : Nat) : String :=
  "bitrateInfo[" ++ toString i ++ "][" ++ toString j ++ "]"

/-- Candidates for the mirror URLs of one bitrate entry
(`bitrate.PlayAddr.UrlList.forEach`, lines 108-115): mirror `j` of entry
`i` gets priority `4 + i` and the entry's quality label. -/
def mirrorSources (i : Nat) (q : Option Nat) : Nat → List String → List Source
  | _, [] => []
  | j, u :: us => ⟨u, bitrateTag i j, 4 + i, q⟩ :: mirrorSources i q (j + 1) us

/-- Candidates from `videoData.video.bitrateInfo.forEach` (lines
105-118): the entry index `i` advances on every entry, also on entries
skipped for lacking `PlayAddr` or `PlayAddr.UrlList`. -/
def bitrateSources : Nat → List BitrateEntry → List Source
  | _, [] => []
  | i, b :: bs =>
    (match b.PlayAddr with
     | some pa =>
       match pa.UrlList with
       | some urls => mirrorSources i b.QualityType 0 urls
       | none => []
     | none => []) ++ bitrateSources (i + 1) bs

/-- Candidate collection of `findBestVideoUrl` (lines 73-119): the
`videoSources` array after all the pushes.  A total function - absence
of any field only yields fewer candidates, never an error. -/
def extract (videoData : VideoData) : List Source :=
  match videoData.video with
  | none => []
  | some v =>
    (if truthyStr v.downloadAddr then
       [⟨v.downloadAddr.getD "", "downloadAddr", 1, none⟩] else []) ++
    (if truthyStr v.playAddrH264 then
       [⟨v.playAddrH264.getD "", "playAddrH264", 2, none⟩] else []) ++
    (if truthyStr v.playAddr then
       [⟨v.playAddr.getD "", "playAddr", 3, none⟩] else []) ++
    (match v.bitrateInfo with
     | some entries => bitrateSources 0 entries
     | none => [])

/-- Stable insertion of a candidate into a priority-sorted list: the
element is placed before the first element of greater-or-equal priority
that originally came after it.  Insertion sort with this `≤` test is a
stable sort, and a stable sort by a given key is unique, so this models
`Array.prototype.sort((a, b) => a.priority - b.priority)` (line 126) -
ECMAScript `Array.prototype.sort` is stable. -/
def insertByPriority (a : Source) : List Source → List Source
  | [] => [a]
  | b :: l => if a.priority ≤ b.priority then a :: b :: l else b :: insertByPriority a l

/-- Stable sort by ascending priority, modelling line 126. -/
def sortByPriority : List Source → List Source
  | [] => []
  | a :: l => insertByPriority a (sortByPriority l)

/-- The Selector's output (lines 146-150): `originalUrl` is the cleaned
URL that was probed. -/
structure ResolvedSource where
  originalUrl : String
  type : String
  priority : Nat
deriving DecidableEq, Repr

/-- Terminal errors thrown by `findBestVideoUrl`: line 122
(`No video sources found`) and line 167 (`No accessible video URLs
found`). -/
inductive FindErr where
  | noSourcesFound
  | noAccessibleSource
deriving DecidableEq, Repr

/-- The probe loop (lines 134-154): walk the sorted candidates, probe
the cleaned URL of each, return the first accessible one wrapped as a
`ResolvedSource`.  The prober `testVideoUrl` never throws (network
errors collapse to `false`), so it is an oracle `String → Bool`. -/
def probeLoop (probe : String → Bool) : List Source → Option ResolvedSource
  | [] => none
  | s :: rest =>
    if probe (cleanUrl s.url) then
      some ⟨cleanUrl s.url, s.type, s.priority⟩
    else
      probeLoop probe rest

/-- The URLs handed to the prober, in order: every probed URL up to and
including the first accessible one.  Observation function of the same
loop (lines 134-154). -/
def probeTrace (probe : String → Bool) : List Source → List String
  | [] => []
  | s :: rest =>
    cleanUrl s.url :: (if probe (cleanUrl s.url) then [] else probeTrace probe rest)

/-- The whole of `findBestVideoUrl` (lines 72-168): extract, fail on an
empty candidate list, sort by priority, probe in order, and otherwise
fall back to the `playAddr` candidate under the distinct label
`playAddr (fallback)`. -/
def findBestVideoUrl (probe : String → Bool) (videoData : VideoData) :
    Except FindErr ResolvedSource :=
  let videoSources := extract videoData
  if videoSources.length = 0 then
    .error .noSourcesFound
  else
    let sorted := sortByPriority videoSources
    match probeLoop probe sorted with
    | some r => .ok r
    | none =>
      match sorted.find? (fun s => s.type == "playAddr") with
      | some fb => .ok ⟨cleanUrl fb.url, "playAddr (fallback)", fb.priority⟩
      | none => .error .noAccessibleSource


/-- Decidable equality for `Except`, used to evaluate the embedded
functions on concrete inputs. -/
instance {ε α : Type} [DecidableEq ε] [DecidableEq α] : DecidableEq (Except ε α)
  | .error e, .error f =>
    if h : e = f then isTrue (by rw [h]) else isFalse (by intro hh; cases hh; exact h rfl)
  | .error _, .ok _ => isFalse (by intro h; cases h)
  | .ok _, .error _ => isFalse (by intro h; cases h)
  | .ok a, .ok b =>
    if h : a = b then isTrue (by rw [h]) else isFalse (by intro hh; cases hh; exact h rfl)

/-- What the network answers to one HTTPS GET of a URL: either a
response (status code, optional `Location` header, body byte count) or a
connection-level error (the request's `error` event, line 356). -/
inductive NetEvent where
  | response (code : Nat) (location : Option String) (bodyBytes : Nat)
  | connError
deriving DecidableEq, Repr

/-- The on-disk state visible to the downloader: an association list
from file paths to byte sizes. -/
abbrev FS := List (String × Nat)

/-- Size of the file at `p`, if it exists (`fs.statSync`, line 244). -/
def FS.lookup : FS → String → Option Nat
  | [], _ => none
  | (k, v) :: rest, p => if k == p then some v else FS.lookup rest p

/-- Create or truncate the file at `p` to `n` bytes
(`fs.createWriteStream` creates an empty file; a completed stream leaves
the body). -/
def FS.set : FS → String → Nat → FS
  | [], p, n => [(p, n)]
  | (k, v) :: rest, p, n =>
    if k == p then (p, n) :: rest else (k, v) :: FS.set rest p n

/-- Delete the file at `p` (`fs.unlinkSync` / `fs.unlink`). -/
def FS.erase (fs : FS) (p : String) : FS :=
  fs.filter (fun e => e.1 != p)

/-- The path `downloadVideo` writes to: `path.join('./videos',
filename)` (line 312). -/
def videoPath (filename : String) : String :=
  "videos/" ++ filename

/-- Why one call of `downloadVideo` rejected: a non-success,
non-redirect status (line 335) or a request error (line 356). -/
inductive DlErr where
  | statusErr (code : Nat)
  | connErr
deriving DecidableEq, Repr

/-- The body of `downloadVideo` (lines 305-361) over the network oracle:
open the write stream (creating an empty file), issue the GET, and

* on a 3xx status with a `Location` header, recurse on the target
  (lines 327-332) - the file just created stays and is re-created by the
  recursive call;
* on any other non-200 status, reject; the created empty file is NOT
  removed (lines 334-337);
* on 200, the body is streamed into the file and the path resolved
  (lines 339-355);
* on a request error, the file is unlinked and the promise rejected
  (lines 356-359).

The source recursion has no depth bound, so the embedding carries
explicit fuel that shrinks on every redirect hop; `none` means the chain
outlived the fuel. -/
def downloadVideo (net : String → NetEvent) :
    Nat → FS → String → String → Option (FS × Except DlErr String)
  | 0, _, _, _ => none
  | fuel + 1, fs, url, filename =>
    let filePath := videoPath filename
    let fs1 := FS.set fs filePath 0
    match net url with
    | .connError => some (FS.erase fs1 filePath, .error .connErr)
    | .response code loc body =>
      match loc with
      | some l =>
        if 300 ≤ code ∧ code < 400 then
          downloadVideo net fuel fs1 l filename
        else if code ≠ 200 then
          some (fs1, .error (.statusErr code))
        else
          some (FS.set fs1 filePath body, .ok filePath)
      | none =>
        if code ≠ 200 then
          some (fs1, .error (.statusErr code))
        else
          some (FS.set fs1 filePath body, .ok filePath)

/-- One planned download attempt (lines 204-229): URL, display name and
filename suffix. -/
structure Attempt where
  url : String
  name : String
  suffix : String
deriving DecidableEq, Repr

/-- The `attempts` array of `tryMultipleDownloads` (lines 204-229):
always the original URL and the `watermark=1 → watermark=0` rewrite;
additionally the `watermark` + `logo` rewrite when the original URL
contains `watermark=1`. -/
def planAttempts (originalUrl : String) : List Attempt :=
  [⟨originalUrl, "Original", "_original"⟩,
   ⟨replaceAll originalUrl "watermark=1" "watermark=0",
    "Watermark Modified", "_no_watermark"⟩] ++
  (if containsSub originalUrl "watermark=1" then
     [⟨replaceAll (replaceAll originalUrl "watermark=1" "watermark=0") "logo=1" "logo=0",
       "Full Parameter Modified", "_full_modified"⟩]
   else [])

/-- One successful download record pushed onto `results` (lines
247-252). -/
structure Outcome where
  type : String
  path : String
  size : Nat
  url : String
deriving DecidableEq, Repr

/-- The target filename of one attempt:
`filename.replace('.mp4', '') + suffix + '.mp4'` (lines 238-239; the
plain-string `replace` rewrites only the first occurrence). -/
def attemptTarget (filename : String) (a : Attempt) : String :=
  replaceFirst filename ".mp4" "" ++ a.suffix ++ ".mp4"

/-- The artifact check after a resolved download (lines 243-256):
`statSync` the file and either record a success (size strictly above
1024 bytes, line 245) or delete the too-small file and record nothing
(lines 253-256).  The `none` case is `statSync` throwing on a missing
file, which the surrounding catch swallows. -/
def validateArtifact (a : Attempt) (fs1 : FS) (filePath : String) :
    Option Nat → Option (FS × Option Outcome)
  | none => some (fs1, none)
  | some size =>
    if 1024 < size then
      some (fs1, some ⟨a.name, filePath, size, a.url⟩)
    else
      some (FS.erase fs1 filePath, none)

/-- Dispatch on the download result: a rejection is caught by the
`try/catch` of lines 233-260 and yields no outcome; a resolution is
validated by size. -/
def finishAttempt (a : Attempt) :
    Option (FS × Except DlErr String) → Option (FS × Option Outcome)
  | none => none
  | some (fs1, .error _) => some (fs1, none)
  | some (fs1, .ok filePath) => validateArtifact a fs1 filePath (FS.lookup fs1 filePath)

/-- The body of the per-attempt loop of `tryMultipleDownloads` (lines
233-261): run `downloadVideo` on the attempt's URL and target file, then
finish as above. -/
def runAttempt (net : String → NetEvent) (fuel : Nat) (filename : String)
    (fs : FS) (a : Attempt) : Option (FS × Option Outcome) :=
  finishAttempt a (downloadVideo net fuel fs a.url (attemptTarget filename a))

/-- The whole attempt loop: outcomes are appended in the input order of
the attempt list (lines 231-263). -/
def runAttempts (net : String → NetEvent) (fuel : Nat) (filename : String) :
    FS → List Attempt → Option (FS × List Outcome)
  | fs, [] => some (fs, [])
  | fs, a :: rest =>
    match runAttempt net fuel filename fs a with
    | none => none
    | some (fs1, res) =>
      match runAttempts net fuel filename fs1 rest with
      | none => none
      | some (fs2, outs) => some (fs2, res.toList ++ outs)

/-- `tryMultipleDownloads` (lines 203-264): plan the attempts from the
resolved URL and run them all. -/
def tryMultipleDownloads (net : String → NetEvent) (fuel : Nat)
    (videoInfo : ResolvedSource) (filename : String) (fs : FS) :
    Option (FS × List Outcome) :=
  runAttempts net fuel filename fs (planAttempts videoInfo.originalUrl)

/-- The fatal error of the acquisition step:
`throw new Error('All download attempts failed')` (line 379). -/
inductive RunErr where
  | allDownloadsFailed
deriving DecidableEq, Repr

/-- The acquisition part of `run` (lines 376-380): run all attempts and
fail with `AllDownloadsFailed` exactly when the result list is empty. -/
def runAcquisition (net : String → NetEvent) (fuel : Nat)
    (videoInfo : ResolvedSource) (filename : String) (fs : FS) :
    Option (FS × Except RunErr (List Outcome)) :=
  match tryMultipleDownloads net fuel videoInfo filename fs with
  | none => none
  | some (fs1, results) =>
    if results.length = 0 then some (fs1, .error .allDownloadsFailed)
    else some (fs1, .ok results)

/-- Decides whether every attempt of the list fails (yields no outcome)
when run in sequence from `fs`.  `false` also when some attempt fails to
terminate. -/
def allFailedB (net : String → NetEvent) (fuel : Nat) (filename : String) :
    FS → List Attempt → Bool
  | _, [] => true
  | fs, a :: rest =>
    match runAttempt net fuel filename fs a with
    | some (fs1, none) => allFailedB net fuel filename fs1 rest
    | _ => false

/-- The redirect step `downloadVideo` takes on a URL: the `Location`
target when the status is a redirect carrying one, `none` when the call
settles at this URL. -/
def redirectTarget (net : String → NetEvent) (u : String) : Option String :=
  match net u with
  | .response code (some l) _ => if 300 ≤ code ∧ code < 400 then some l else none
  | _ => none

/-- The URL reached after at most `n` redirect hops from `u`. -/
def hop (net : String → NetEvent) : Nat → String → String
  | 0, u => u
  | n + 1, u =>
    match redirectTarget net u with
    | some l => hop net n l
    | none => u

/-- Termination of one `downloadVideo` call: some fuel suffices. -/
def downloadTerminates (net : String → NetEvent) (fs : FS)
    (url filename : String) : Prop :=
  ∃ fuel r, downloadVideo net fuel fs url filename = some r

section SortLemmas

lemma mem_insertByPriority {s a : Source} {l : List Source} :
    s ∈ insertByPriority a l ↔ s = a ∨ s ∈ l := by
  induction l with
  | nil => simp [insertByPriority]
  | cons b l ih =>
    by_cases h : a.priority ≤ b.priority
    · simp [insertByPriority, h]
    · simp [insertByPriority, h, ih]
      tauto

lemma mem_sortByPriority {s : Source} {l : List Source} :
    s ∈ sortByPriority l ↔ s ∈ l := by
  induction l with
  | nil => simp [sortByPriority]
  | cons a l ih => simp [sortByPriority, mem_insertByPriority, ih]

lemma pairwise_insertByPriority {a : Source} {l : List Source}
    (h : l.Pairwise (fun x y => x.priority ≤ y.priority)) :
    (insertByPriority a l).Pairwise (fun x y => x.priority ≤ y.priority) := by
  induction l with
  | nil => simp [insertByPriority]
  | cons b l ih =>
    rcases List.pairwise_cons.mp h with ⟨hb, hl⟩
    by_cases hab : a.priority ≤ b.priority
    · rw [insertByPriority, if_pos hab]
      refine List.pairwise_cons.mpr ⟨?_, h⟩
      intro x hx
      rcases List.mem_cons.mp hx with rfl | hx
      · exact hab
      · exact le_trans hab (hb x hx)
    · rw [insertByPriority, if_neg hab]
      refine List.pairwise_cons.mpr ⟨?_, ih hl⟩
      intro x hx
      rcases mem_insertByPriority.mp hx with rfl | hx
      · omega
      · exact hb x hx

lemma pairwise_sortByPriority (l : List Source) :
    (sortByPriority l).Pairwise (fun x y => x.priority ≤ y.priority) := by
  induction l with
  | nil => simp [sortByPriority]
  | cons a l ih => exact pairwise_insertByPriority ih

lemma filter_insertByPriority (a : Source) (l : List Source) (p : Nat) :
    (insertByPriority a l).filter (fun s => s.priority == p) =
      if a.priority = p then a :: l.filter (fun s => s.priority == p)
      else l.filter (fun s => s.priority == p) := by
  induction l with
  | nil =>
    by_cases h : a.priority = p <;>
      simp [insertByPriority, List.filter_cons, List.filter_nil, h]
  | cons b l ih =>
    by_cases hab : a.priority ≤ b.priority
    · rw [insertByPriority, if_pos hab]
      by_cases h : a.priority = p <;> simp [List.filter_cons, h]
    · rw [insertByPriority, if_neg hab]
      by_cases h : a.priority = p
      · have hb : (b.priority == p) = false := by
          simp only [beq_eq_false_iff_ne, ne_eq]
          omega
        simp [List.filter_cons, hb, ih, h]
      · by_cases hb : b.priority = p <;> simp [List.filter_cons, hb, ih, h]

lemma filter_sortByPriority (l : List Source) (p : Nat) :
    (sortByPriority l).filter (fun s => s.priority == p) =
      l.filter (fun s => s.priority == p) := by
  induction l with
  | nil => rfl
  | cons a l ih =>
    rw [sortByPriority, filter_insertByPriority]
    by_cases h : a.priority = p <;> simp [List.filter_cons, h, ih]

end SortLemmas

section ProbeLemmas

lemma probeLoop_eq_find? (probe : String → Bool) (l : List Source) :
    probeLoop probe l =
      (l.find? (fun s => probe (cleanUrl s.url))).map
        (fun s => ⟨cleanUrl s.url, s.type, s.priority⟩) := by
  induction l with
  | nil => rfl
  | cons s l ih =>
    by_cases h : probe (cleanUrl s.url) <;>
      simp [probeLoop, List.find?_cons, h, ih]

lemma probeLoop_eq_none (probe : String → Bool) (l : List Source)
    (h : ∀ s ∈ l, probe (cleanUrl s.url) = false) :
    probeLoop probe l = none := by
  rw [probeLoop_eq_find?]
  rw [List.find?_eq_none.mpr]
  · rfl
  · intro x hx
    simp [h x hx]

lemma probeLoop_some (probe : String → Bool) (l : List Source)
    {r : ResolvedSource} (h : probeLoop probe l = some r) :
    ∃ s ∈ l, probe (cleanUrl s.url) = true ∧
      r = ⟨cleanUrl s.url, s.type, s.priority⟩ := by
  rw [probeLoop_eq_find?] at h
  rcases Option.map_eq_some'.mp h with ⟨s, hs, hr⟩
  have hp := List.find?_some hs
  exact ⟨s, List.mem_of_find?_eq_some hs, hp, hr.symm⟩

end ProbeLemmas

section ExtractLemmas

lemma bitrateTag_head (i j : Nat) : (bitrateTag i j).data.head? = some 'b' := by
  have h1 : (bitrateTag i j).data =
      "bitrateInfo[".data ++ ((toString i).data ++ ("][".data ++
        ((toString j).data ++ "]".data))) := by
    simp [bitrateTag, String.data_append]
  rw [h1]
  rfl

lemma bitrateTag_ne (i j : Nat) (t : String)
    (ht : t.data.head? ≠ some 'b') : bitrateTag i j ≠ t := by
  intro h
  exact ht (h ▸ bitrateTag_head i j)

lemma mem_mirrorSources {i : Nat} {q : Option Nat} {s : Source} :
    ∀ {j0 : Nat} {urls : List String},
      s ∈ mirrorSources i q j0 urls ↔
        ∃ j u, urls.get? j = some u ∧ s = ⟨u, bitrateTag i (j0 + j), 4 + i, q⟩ := by
  intro j0 urls
  induction urls generalizing j0 with
  | nil => simp [mirrorSources]
  | cons u us ih =>
    simp only [mirrorSources, List.mem_cons, ih]
    constructor
    · rintro (rfl | ⟨j, w, hj, rfl⟩)
      · exact ⟨0, u, rfl, by simp⟩
      · exact ⟨j + 1, w, by simpa using hj, by
          have : j0 + 1 + j = j0 + (j + 1) := by omega
          rw [this]⟩
    · rintro ⟨j, w, hj, rfl⟩
      cases j with
      | zero =>
        left
        simp only [List.get?_cons_zero, Option.some.injEq] at hj
        simp [hj]
      | succ j =>
        right
        refine ⟨j, w, by simpa using hj, ?_⟩
        have : j0 + (j + 1) = j0 + 1 + j := by omega
        rw [this]

lemma mem_bitrateHead {k : Nat} {b : BitrateEntry} {s : Source} :
    s ∈ (match b.PlayAddr with
         | some pa =>
           match pa.UrlList with
           | some urls => mirrorSources k b.QualityType 0 urls
           | none => []
         | none => []) ↔
      ∃ pa urls j u, b.PlayAddr = some pa ∧ pa.UrlList = some urls ∧
        urls.get? j = some u ∧ s = ⟨u, bitrateTag k j, 4 + k, b.QualityType⟩ := by
  obtain ⟨bpa, bq⟩ := b
  rcases bpa with _ | ⟨ul⟩
  · simp
  · rcases ul with _ | urls
    · simp
    · simp [mem_mirrorSources]

lemma mem_bitrateSources {s : Source} :
    ∀ {k : Nat} {bs : List BitrateEntry},
      s ∈ bitrateSources k bs ↔
        ∃ i b pa urls j u, bs.get? i = some b ∧ b.PlayAddr = some pa ∧
          pa.UrlList = some urls ∧ urls.get? j = some u ∧
          s = ⟨u, bitrateTag (k + i) j, 4 + (k + i), b.QualityType⟩ := by
  intro k bs
  induction bs generalizing k with
  | nil => simp [bitrateSources]
  | cons b bs ih =>
    rw [bitrateSources, List.mem_append, ih]
    constructor
    · rintro (hhead | ⟨i, b', pa, urls, j, u, hi, hpa, hurls, hj, rfl⟩)
      · rcases mem_bitrateHead.mp hhead with ⟨pa, urls, j, u, hpa, hurls, hj, rfl⟩
        exact ⟨0, b, pa, urls, j, u, rfl, hpa, hurls, hj, by simp⟩
      · exact ⟨i + 1, b', pa, urls, j, u, by simpa using hi, hpa, hurls, hj, by
          have : k + (i + 1) = k + 1 + i := by omega
          rw [this]⟩
    · rintro ⟨i, b', pa, urls, j, u, hi, hpa, hurls, hj, rfl⟩
      cases i with
      | zero =>
        left
        simp only [List.get?_cons_zero, Option.some.injEq] at hi
        subst hi
        exact mem_bitrateHead.mpr ⟨pa, urls, j, u, hpa, hurls, hj, by simp⟩
      | succ i =>
        right
        refine ⟨i, b', pa, urls, j, u, by simpa using hi, hpa, hurls, hj, ?_⟩
        have : k + (i + 1) = k + 1 + i := by omega
        rw [this]

lemma mem_extract {vd : VideoData} {s : Source} :
    s ∈ extract vd ↔
      ∃ v, vd.video = some v ∧
        ((truthyStr v.downloadAddr = true ∧
            s = ⟨v.downloadAddr.getD "", "downloadAddr", 1, none⟩) ∨
         (truthyStr v.playAddrH264 = true ∧
            s = ⟨v.playAddrH264.getD "", "playAddrH264", 2, none⟩) ∨
         (truthyStr v.playAddr = true ∧
            s = ⟨v.playAddr.getD "", "playAddr", 3, none⟩) ∨
         (∃ entries, v.bitrateInfo = some entries ∧ s ∈ bitrateSources 0 entries)) := by
  match hv : vd.video with
  | none => simp [extract, hv]
  | some v =>
    simp only [extract, hv, List.mem_append, Option.some.injEq]
    constructor
    · rintro (((h | h) | h) | h)
      · refine ⟨v, rfl, Or.inl ?_⟩
        by_cases ht : truthyStr v.downloadAddr <;> simp [ht] at h ⊢; exact h
      · refine ⟨v, rfl, Or.inr (Or.inl ?_)⟩
        by_cases ht : truthyStr v.playAddrH264 <;> simp [ht] at h ⊢; exact h
      · refine ⟨v, rfl, Or.inr (Or.inr (Or.inl ?_))⟩
        by_cases ht : truthyStr v.playAddr <;> simp [ht] at h ⊢; exact h
      · match hb : v.bitrateInfo with
        | none => rw [hb] at h; simp at h
        | some entries =>
          rw [hb] at h
          exact ⟨v, rfl, Or.inr (Or.inr (Or.inr ⟨entries, hb, h⟩))⟩
    · rintro ⟨v', hv', (⟨ht, rfl⟩ | ⟨ht, rfl⟩ | ⟨ht, rfl⟩ | ⟨entries, hb, hs⟩)⟩ <;>
        cases hv' <;>
        [ exact Or.inl (Or.inl (Or.inl (by simp [ht])));
          exact Or.inl (Or.inl (Or.inr (by simp [ht])));
          exact Or.inl (Or.inr (by simp [ht]));
          exact Or.inr (by rw [hb]; exact hs) ]

/-- The four kinds of candidate tag, needed to tell the fallback label
apart from every tag the extractor emits. -/
lemma extract_type {vd : VideoData} {s : Source} (h : s ∈ extract vd) :
    s.type = "downloadAddr" ∨ s.type = "playAddrH264" ∨ s.type = "playAddr" ∨
      ∃ i j, s.type = bitrateTag i j := by
  rcases mem_extract.mp h with ⟨v, _, (⟨_, rfl⟩ | ⟨_, rfl⟩ | ⟨_, rfl⟩ | ⟨entries, _, hs⟩)⟩
  · exact Or.inl rfl
  · exact Or.inr (Or.inl rfl)
  · exact Or.inr (Or.inr (Or.inl rfl))
  · rcases mem_bitrateSources.mp hs with ⟨i, b, pa, urls, j, u, _, _, _, _, rfl⟩
    exact Or.inr (Or.inr (Or.inr ⟨0 + i, j, rfl⟩))

lemma extract_type_ne_fallback {vd : VideoData} {s : Source}
    (h : s ∈ extract vd) : s.type ≠ "playAddr (fallback)" := by
  rcases extract_type h with ht | ht | ht | ⟨i, j, ht⟩ <;> rw [ht]
  · decide
  · decide
  · decide
  · exact bitrateTag_ne i j _ (by decide)

/-- The extractor emits at most one candidate tagged `playAddr`: the
standard play address of the `video` object. -/
lemma extract_playAddr_unique {vd : VideoData} {s t : Source}
    (hs : s ∈ extract vd) (ht : t ∈ extract vd)
    (hst : s.type = "playAddr") (htt : t.type = "playAddr") : s = t := by
  have key : ∀ {x : Source}, x ∈ extract vd → x.type = "playAddr" →
      ∃ v, vd.video = some v ∧ truthyStr v.playAddr = true ∧
        x = ⟨v.playAddr.getD "", "playAddr", 3, none⟩ := by
    intro x hx hxt
    rcases mem_extract.mp hx with
      ⟨v, hv, (⟨h1, rfl⟩ | ⟨h1, rfl⟩ | ⟨h1, rfl⟩ | ⟨entries, hb, hmem⟩)⟩
    · simp at hxt
    · simp at hxt
    · exact ⟨v, hv, h1, rfl⟩
    · rcases mem_bitrateSources.mp hmem with ⟨i, b, pa, urls, j, u, _, _, _, _, rfl⟩
      exact absurd hxt (bitrateTag_ne (0 + i) j _ (by decide))
  rcases key hs hst with ⟨v, hv, _, rfl⟩
  rcases key ht htt with ⟨v', hv', _, rfl⟩
  rw [hv] at hv'
  cases hv'
  rfl

end ExtractLemmas

section SelectionLemmas

lemma truthyStr_iff {o : Option String} :
    truthyStr o = true ↔ ∃ u, o = some u ∧ u ≠ "" := by
  cases o with
  | none => simp [truthyStr]
  | some s =>
    simp only [truthyStr, Bool.not_eq_true', Option.some.injEq]
    constructor
    · intro h
      refine ⟨s, rfl, fun hs => ?_⟩
      rw [hs] at h
      exact absurd h (by decide)
    · rintro ⟨u, hu, hne⟩
      cases hu
      cases hs : s.isEmpty
      · rfl
      · exact absurd ((String.isEmpty_iff s).mp hs) hne

lemma findBestVideoUrl_eq_of_ne_nil (probe : String → Bool) (vd : VideoData)
    (h : extract vd ≠ []) :
    findBestVideoUrl probe vd =
      (match probeLoop probe (sortByPriority (extract vd)) with
       | some r => .ok r
       | none =>
         match (sortByPriority (extract vd)).find? (fun s => s.type == "playAddr") with
         | some fb => .ok ⟨cleanUrl fb.url, "playAddr (fallback)", fb.priority⟩
         | none => .error .noAccessibleSource) := by
  simp only [findBestVideoUrl]
  rw [if_neg (by simpa using h)]

end SelectionLemmas

/-- Concrete metadata for evaluation: all three scalar address fields
present, the URLs carrying the escaped-ampersand sequence. -/
def demoMeta : VideoData :=
  ⟨some ⟨some "d?a=1\\u0026b=2", some "h?a=1\\u0026b=2", some "p?a=1\\u0026b=2", none⟩⟩

/-- A probe that accepts only the normalised `playAddr` URL of
`demoMeta`. -/
def demoProbe : String → Bool := fun u => u == "p?a=1&b=2"

/-- C1: selection sorts candidates ascending by priority (stably), probes
them in that order with every `&` escape replaced by `&`, and
returns the first candidate whose probe succeeds; with `downloadAddr`,
`playAddrH264` and `playAddr` all present and only `playAddr` reachable,
it returns the `playAddr` candidate after probing the two higher-priority
URLs first. -/
theorem C1_selection_sorted_probe_order :
    (∀ l : List Source,
        (sortByPriority l).Pairwise (fun a b => a.priority ≤ b.priority)) ∧
    (∀ (l : List Source) (p : Nat),
        (sortByPriority l).filter (fun s => s.priority == p) =
          l.filter (fun s => s.priority == p)) ∧
    (∀ (vd : VideoData) (probe : String → Bool) (s : Source),
        (sortByPriority (extract vd)).find? (fun t => probe (cleanUrl t.url)) = some s →
        findBestVideoUrl probe vd = .ok ⟨cleanUrl s.url, s.type, s.priority⟩) ∧
    (findBestVideoUrl demoProbe demoMeta = .ok ⟨"p?a=1&b=2", "playAddr", 3⟩ ∧
     probeTrace demoProbe (sortByPriority (extract demoMeta)) =
       ["d?a=1&b=2", "h?a=1&b=2", "p?a=1&b=2"]) := by
  refine ⟨pairwise_sortByPriority, filter_sortByPriority, ?_, by decide, by decide⟩
  intro vd probe s hfind
  have hmem : s ∈ extract vd :=
    mem_sortByPriority.mp (List.mem_of_find?_eq_some hfind)
  rw [findBestVideoUrl_eq_of_ne_nil probe vd (List.ne_nil_of_mem hmem)]
  rw [probeLoop_eq_find?, hfind]
  rfl

/-- Witness for C1: the concrete scenario, obtained by applying the
first-success conjunct at the `playAddr` candidate of `demoMeta`. -/
theorem C1_selection_sorted_probe_order_witness :
    findBestVideoUrl demoProbe demoMeta = .ok ⟨"p?a=1&b=2", "playAddr", 3⟩ := by
  have h := C1_selection_sorted_probe_order.2.2.1 demoMeta demoProbe
      ⟨"p?a=1\\u0026b=2", "playAddr", 3, none⟩ (by decide)
  exact h

/-- C2: extraction emits exactly these candidates - the no-watermark
download address at priority 1, the H264 play address at priority 2, the
standard play address at priority 3, and mirror `j` of bitrate entry `i`
at priority `4 + i` tagged `bitrateInfo[i][j]` with the entry's quality
label; absent (or empty, hence falsy) fields contribute nothing and never
an error. -/
theorem C2_extract_priorities (vd : VideoData) (s : Source) :
    s ∈ extract vd ↔
      ∃ v, vd.video = some v ∧
        ((∃ u, v.downloadAddr = some u ∧ u ≠ "" ∧ s = ⟨u, "downloadAddr", 1, none⟩) ∨
         (∃ u, v.playAddrH264 = some u ∧ u ≠ "" ∧ s = ⟨u, "playAddrH264", 2, none⟩) ∨
         (∃ u, v.playAddr = some u ∧ u ≠ "" ∧ s = ⟨u, "playAddr", 3, none⟩) ∨
         (∃ entries i b pa urls j u,
            v.bitrateInfo = some entries ∧ entries.get? i = some b ∧
            b.PlayAddr = some pa ∧ pa.UrlList = some urls ∧ urls.get? j = some u ∧
            s = ⟨u, bitrateTag i j, 4 + i, b.QualityType⟩)) := by
  rw [mem_extract]
  constructor
  · rintro ⟨v, hv, (⟨ht, rfl⟩ | ⟨ht, rfl⟩ | ⟨ht, rfl⟩ | ⟨entries, hb, hmem⟩)⟩
    · rcases truthyStr_iff.mp ht with ⟨u, hu, hne⟩
      exact ⟨v, hv, Or.inl ⟨u, hu, hne, by simp [hu]⟩⟩
    · rcases truthyStr_iff.mp ht with ⟨u, hu, hne⟩
      exact ⟨v, hv, Or.inr (Or.inl ⟨u, hu, hne, by simp [hu]⟩)⟩
    · rcases truthyStr_iff.mp ht with ⟨u, hu, hne⟩
      exact ⟨v, hv, Or.inr (Or.inr (Or.inl ⟨u, hu, hne, by simp [hu]⟩))⟩
    · rcases mem_bitrateSources.mp hmem with ⟨i, b, pa, urls, j, u, hi, hpa, hurls, hj, rfl⟩
      exact ⟨v, hv, Or.inr (Or.inr (Or.inr
        ⟨entries, i, b, pa, urls, j, u, hb, hi, hpa, hurls, hj, by simp⟩))⟩
  · rintro ⟨v, hv, (⟨u, hu, hne, rfl⟩ | ⟨u, hu, hne, rfl⟩ | ⟨u, hu, hne, rfl⟩ |
      ⟨entries, i, b, pa, urls, j, u, hb, hi, hpa, hurls, hj, rfl⟩)⟩
    · exact ⟨v, hv, Or.inl ⟨truthyStr_iff.mpr ⟨u, hu, hne⟩, by simp [hu]⟩⟩
    · exact ⟨v, hv, Or.inr (Or.inl ⟨truthyStr_iff.mpr ⟨u, hu, hne⟩, by simp [hu]⟩)⟩
    · exact ⟨v, hv, Or.inr (Or.inr (Or.inl ⟨truthyStr_iff.mpr ⟨u, hu, hne⟩, by simp [hu]⟩))⟩
    · exact ⟨v, hv, Or.inr (Or.inr (Or.inr ⟨entries, hb,
        mem_bitrateSources.mpr ⟨i, b, pa, urls, j, u, hi, hpa, hurls, hj, by simp⟩⟩))⟩

/-- Witness for C2: a concrete bitrate mirror candidate is emitted with
priority `4 + 1` and the entry's quality label. -/
theorem C2_extract_priorities_witness :
    (⟨"m1", bitrateTag 1 0, 5, some 9⟩ : Source) ∈
      extract ⟨some ⟨none, none, none,
        some [⟨none, none⟩, ⟨some ⟨some ["m1"]⟩, some 9⟩]⟩⟩ :=
  (C2_extract_priorities _ _).mpr
    ⟨_, rfl, Or.inr (Or.inr (Or.inr
      ⟨_, 1, ⟨some ⟨some ["m1"]⟩, some 9⟩, ⟨some ["m1"]⟩, ["m1"], 0, "m1",
        rfl, rfl, rfl, rfl, rfl, rfl⟩))⟩

/-- C3: when no candidate's probe succeeds, selection returns the
`playAddr` candidate (URL ampersand-normalised) when one exists, and
fails with `NoAccessibleSource` exactly when additionally no `playAddr`
candidate exists. -/
theorem C3_fallback_policy :
    (∀ (vd : VideoData) (probe : String → Bool) (s : Source),
        (∀ t ∈ extract vd, probe (cleanUrl t.url) = false) →
        s ∈ extract vd → s.type = "playAddr" →
        findBestVideoUrl probe vd =
          .ok ⟨cleanUrl s.url, "playAddr (fallback)", s.priority⟩) ∧
    (∀ (vd : VideoData) (probe : String → Bool),
        findBestVideoUrl probe vd = .error .noAccessibleSource ↔
          (extract vd ≠ [] ∧ (∀ t ∈ extract vd, probe (cleanUrl t.url) = false) ∧
           ∀ t ∈ extract vd, t.type ≠ "playAddr")) := by
  constructor
  · intro vd probe s hfail hs hst
    rw [findBestVideoUrl_eq_of_ne_nil probe vd (List.ne_nil_of_mem hs)]
    rw [probeLoop_eq_none probe _ (fun t ht => hfail t (mem_sortByPriority.mp ht))]
    have hsome : ((sortByPriority (extract vd)).find?
        (fun t => t.type == "playAddr")).isSome := by
      rw [List.find?_isSome]
      exact ⟨s, mem_sortByPriority.mpr hs, by simp [hst]⟩
    rcases Option.isSome_iff_exists.mp hsome with ⟨fb, hfb⟩
    have hfbmem : fb ∈ extract vd :=
      mem_sortByPriority.mp (List.mem_of_find?_eq_some hfb)
    have hfbt : fb.type = "playAddr" := by
      have := List.find?_some hfb
      simpa using this
    have : fb = s := extract_playAddr_unique hfbmem hs hfbt hst
    rw [hfb, this]
  · intro vd probe
    constructor
    · intro herr
      have hne : extract vd ≠ [] := by
        intro hnil
        rw [findBestVideoUrl, if_pos (by simp [hnil])] at herr
        cases herr
      refine ⟨hne, ?_⟩
      rw [findBestVideoUrl_eq_of_ne_nil probe vd hne] at herr
      match hpl : probeLoop probe (sortByPriority (extract vd)) with
      | some r => rw [hpl] at herr; cases herr
      | none =>
        rw [hpl] at herr
        match hfb : (sortByPriority (extract vd)).find? (fun t => t.type == "playAddr") with
        | some fb => rw [hfb] at herr; cases herr
        | none =>
          rw [probeLoop_eq_find?] at hpl
          have hprobe := List.find?_eq_none.mp (Option.map_eq_none'.mp hpl)
          have htype := List.find?_eq_none.mp hfb
          constructor
          · intro t ht
            have := hprobe t (mem_sortByPriority.mpr ht)
            simpa using this
          · intro t ht
            have := htype t (mem_sortByPriority.mpr ht)
            simpa using this
    · rintro ⟨hne, hfail, htype⟩
      rw [findBestVideoUrl_eq_of_ne_nil probe vd hne]
      rw [probeLoop_eq_none probe _ (fun t ht => hfail t (mem_sortByPriority.mp ht))]
      rw [List.find?_eq_none.mpr (fun t ht => by
        simp [htype t (mem_sortByPriority.mp ht)])]

/-- Witness for C3: with every probe failing on `demoMeta`, selection
falls back to the `playAddr` candidate. -/
theorem C3_fallback_policy_witness :
    findBestVideoUrl (fun _ => false) demoMeta =
      .ok ⟨"p?a=1&b=2", "playAddr (fallback)", 3⟩ := by
  have h := C3_fallback_policy.1 demoMeta (fun _ => false)
      ⟨"p?a=1\\u0026b=2", "playAddr", 3, none⟩ (by decide) (by decide) rfl
  exact h

/-- C9: a metadata object without a `video` sub-object (or whose video
fields all resolve to nothing) yields an empty candidate list, and the
pipeline fails with `NoSourcesFound` exactly on an empty candidate
list. -/
theorem C9_no_sources_found :
    (∀ vd : VideoData, vd.video = none → extract vd = []) ∧
    (extract ⟨some ⟨none, none, none, none⟩⟩ = []) ∧
    (∀ (vd : VideoData) (probe : String → Bool),
        findBestVideoUrl probe vd = .error .noSourcesFound ↔ extract vd = []) := by
  refine ⟨?_, by decide, ?_⟩
  · intro vd h
    simp [extract, h]
  · intro vd probe
    constructor
    · intro herr
      by_contra hne
      rw [findBestVideoUrl_eq_of_ne_nil probe vd hne] at herr
      match hpl : probeLoop probe (sortByPriority (extract vd)) with
      | some r => rw [hpl] at herr; cases herr
      | none =>
        rw [hpl] at herr
        match hfb : (sortByPriority (extract vd)).find?
            (fun t => t.type == "playAddr") with
        | some fb => rw [hfb] at herr; cases herr
        | none => rw [hfb] at herr; cases herr
    · intro hnil
      rw [findBestVideoUrl, if_pos (by simp [hnil])]

/-- Witness for C9: a metadata object with no `video` block extracts no
candidates and the pipeline reports `NoSourcesFound`. -/
theorem C9_no_sources_found_witness :
    extract ⟨none⟩ = [] ∧
    findBestVideoUrl (fun _ => true) ⟨none⟩ = .error .noSourcesFound := by
  constructor
  · exact C9_no_sources_found.1 ⟨none⟩ rfl
  · exact (C9_no_sources_found.2.2 ⟨none⟩ (fun _ => true)).mpr (by decide)

/-- C10: the result's kind is the distinct label `playAddr (fallback)`
precisely when no candidate probed accessible, so the caller can tell a
probed winner from the unprobed fallback. -/
theorem C10_fallback_label (vd : VideoData) (probe : String → Bool)
    (r : ResolvedSource) (h : findBestVideoUrl probe vd = .ok r) :
    r.type = "playAddr (fallback)" ↔
      ∀ s ∈ extract vd, probe (cleanUrl s.url) = false := by
  have hne : extract vd ≠ [] := by
    intro hnil
    rw [findBestVideoUrl, if_pos (by simp [hnil])] at h
    cases h
  rw [findBestVideoUrl_eq_of_ne_nil probe vd hne] at h
  match hpl : probeLoop probe (sortByPriority (extract vd)) with
  | some r' =>
    rw [hpl] at h
    cases h
    rcases probeLoop_some probe _ hpl with ⟨s, hsmem, hsp, rfl⟩
    constructor
    · intro hlab
      exact absurd hlab (extract_type_ne_fallback (mem_sortByPriority.mp hsmem))
    · intro hall
      have := hall s (mem_sortByPriority.mp hsmem)
      rw [hsp] at this
      cases this
  | none =>
    rw [hpl] at h
    match hfb : (sortByPriority (extract vd)).find? (fun t => t.type == "playAddr") with
    | some fb =>
      rw [hfb] at h
      cases h
      simp only [true_iff]
      rw [probeLoop_eq_find?] at hpl
      have hprobe := List.find?_eq_none.mp (Option.map_eq_none'.mp hpl)
      intro s hs
      have := hprobe s (mem_sortByPriority.mpr hs)
      simpa using this
    | none =>
      rw [hfb] at h
      cases h

/-- Witness for C10: with no probe succeeding on `demoMeta`, the chosen
source carries the fallback label. -/
theorem C10_fallback_label_witness :
    (⟨"p?a=1&b=2", "playAddr (fallback)", 3⟩ : ResolvedSource).type =
      "playAddr (fallback)" :=
  (C10_fallback_label demoMeta (fun _ => false)
      ⟨"p?a=1&b=2", "playAddr (fallback)", 3⟩ (by decide)).mpr (by decide)

section FSLemmas

lemma FS.lookup_erase (fs : FS) (p : String) :
    FS.lookup (FS.erase fs p) p = none := by
  induction fs with
  | nil => rfl
  | cons e fs ih =>
    obtain ⟨k, v⟩ := e
    by_cases h : k = p
    · simpa [FS.erase, List.filter_cons, h] using ih
    · simpa [FS.erase, List.filter_cons, FS.lookup, h] using ih

lemma FS.lookup_set (fs : FS) (p : String) (n : Nat) :
    FS.lookup (FS.set fs p n) p = some n := by
  induction fs with
  | nil => simp [FS.set, FS.lookup]
  | cons e fs ih =>
    obtain ⟨k, v⟩ := e
    by_cases h : k = p
    · simp [FS.set, FS.lookup, h]
    · simp [FS.set, FS.lookup, h, ih]

end FSLemmas

/-- C4: planning produces exactly three variants when the resolved URL
contains `watermark=1` and exactly two otherwise; the original variant
always carries the URL unmodified and the watermark-modified variant
always carries the URL with every `watermark=1` rewritten to
`watermark=0`, marker present or not. -/
theorem C4_variant_planning (u : String) :
    ((planAttempts u).length = if containsSub u "watermark=1" then 3 else 2) ∧
    (planAttempts u).get? 0 = some ⟨u, "Original", "_original"⟩ ∧
    (planAttempts u).get? 1 =
      some ⟨replaceAll u "watermark=1" "watermark=0",
            "Watermark Modified", "_no_watermark"⟩ := by
  refine ⟨?_, rfl, rfl⟩
  by_cases h : containsSub u "watermark=1" = true
  · simp [planAttempts, h]
  · simp [planAttempts, h]

/-- C5: a variant's outcome is recorded as a success exactly when the
downloaded file is strictly larger than 1024 bytes; a file of at most
1024 bytes (1024 included) is deleted from storage and the variant
yields no outcome. -/
theorem C5_size_threshold (net : String → NetEvent) (fuel : Nat)
    (filename : String) (fs fs1 : FS) (a : Attempt) (p : String) (n : Nat)
    (hdl : downloadVideo net fuel fs a.url (attemptTarget filename a) =
      some (fs1, .ok p))
    (hsz : FS.lookup fs1 p = some n) :
    (1024 < n → runAttempt net fuel filename fs a =
        some (fs1, some ⟨a.name, p, n, a.url⟩)) ∧
    (n ≤ 1024 → runAttempt net fuel filename fs a = some (FS.erase fs1 p, none) ∧
        FS.lookup (FS.erase fs1 p) p = none) ∧
    (∀ (fs2 : FS) (o : Outcome),
        runAttempt net fuel filename fs a = some (fs2, some o) → 1024 < o.size) := by
  have hrun : runAttempt net fuel filename fs a = validateArtifact a fs1 p (some n) := by
    rw [runAttempt, hdl, finishAttempt, hsz]
  refine ⟨?_, ?_, ?_⟩
  · intro hlt
    rw [hrun, validateArtifact, if_pos hlt]
  · intro hle
    rw [hrun, validateArtifact, if_neg (by omega)]
    exact ⟨rfl, FS.lookup_erase fs1 p⟩
  · intro fs2 o ho
    rw [hrun, validateArtifact] at ho
    by_cases hlt : 1024 < n
    · rw [if_pos hlt] at ho
      cases ho
      exact hlt
    · rw [if_neg hlt] at ho
      cases ho

/-- Witness for C5: a 500-byte artifact (at most 1024 bytes) is deleted
and yields no outcome. -/
theorem C5_size_threshold_witness :
    runAttempt (fun _ => .response 200 none 500) 1 "v.mp4" []
        ⟨"u", "Original", "_original"⟩ = some ([], none) ∧
    FS.lookup ([] : FS) "videos/v_original.mp4" = none := by
  have h := (C5_size_threshold (fun _ => .response 200 none 500) 1 "v.mp4" []
      [("videos/v_original.mp4", 500)] ⟨"u", "Original", "_original"⟩
      "videos/v_original.mp4" 500 (by decide) (by decide)).2.1 (by omega)
  exact ⟨h.1, rfl⟩

/-- C6: one variant's failure never prevents the remaining variants from
running; a success is appended in the input order of the variant list;
the outcome list is empty exactly when every variant failed; and the
acquisition returns the non-empty list on any success and fails with
`AllDownloadsFailed` exactly on an empty outcome list. -/
theorem C6_isolation_and_aggregation :
    (∀ (net : String → NetEvent) (fuel : Nat) (fn : String) (fs fs1 : FS)
        (a : Attempt) (rest : List Attempt),
        runAttempt net fuel fn fs a = some (fs1, none) →
        runAttempts net fuel fn fs (a :: rest) = runAttempts net fuel fn fs1 rest) ∧
    (∀ (net : String → NetEvent) (fuel : Nat) (fn : String) (fs fs1 fs2 : FS)
        (a : Attempt) (rest : List Attempt) (o : Outcome) (outs : List Outcome),
        runAttempt net fuel fn fs a = some (fs1, some o) →
        runAttempts net fuel fn fs1 rest = some (fs2, outs) →
        runAttempts net fuel fn fs (a :: rest) = some (fs2, o :: outs)) ∧
    (∀ (net : String → NetEvent) (fuel : Nat) (fn : String) (fs fs' : FS)
        (l : List Attempt) (outs : List Outcome),
        runAttempts net fuel fn fs l = some (fs', outs) →
        (outs = [] ↔ allFailedB net fuel fn fs l = true)) ∧
    (∀ (net : String → NetEvent) (fuel : Nat) (vi : ResolvedSource) (fn : String)
        (fs fs' : FS) (outs : List Outcome),
        tryMultipleDownloads net fuel vi fn fs = some (fs', outs) →
        (outs ≠ [] → runAcquisition net fuel vi fn fs = some (fs', .ok outs)) ∧
        (outs = [] → runAcquisition net fuel vi fn fs =
            some (fs', .error .allDownloadsFailed))) := by
  refine ⟨?_, ?_, ?_, ?_⟩
  · intro net fuel fn fs fs1 a rest h
    simp only [runAttempts, h, Option.toList]
    match hres : runAttempts net fuel fn fs1 rest with
    | none => simp [hres]
    | some (fs2, outs) => simp [hres]
  · intro net fuel fn fs fs1 fs2 a rest o outs h hrest
    simp [runAttempts, h, hrest, Option.toList]
  · intro net fuel fn fs fs' l
    induction l generalizing fs with
    | nil =>
      intro outs h
      rw [runAttempts] at h
      cases h
      simp [allFailedB]
    | cons a rest ih =>
      intro outs h
      match hatt : runAttempt net fuel fn fs a with
      | none =>
        simp only [runAttempts, hatt] at h
        cases h
      | some (fs1, none) =>
        simp only [runAttempts, hatt, Option.toList] at h
        match hrest : runAttempts net fuel fn fs1 rest with
        | none => rw [hrest] at h; cases h
        | some (fs2, outs') =>
          rw [hrest] at h
          simp only [List.nil_append, Option.some.injEq, Prod.mk.injEq] at h
          rcases h with ⟨rfl, rfl⟩
          simp only [allFailedB, hatt]
          exact ih fs1 outs' hrest
      | some (fs1, some o) =>
        simp only [runAttempts, hatt, Option.toList] at h
        match hrest : runAttempts net fuel fn fs1 rest with
        | none => rw [hrest] at h; cases h
        | some (fs2, outs') =>
          rw [hrest] at h
          simp only [List.singleton_append, Option.some.injEq, Prod.mk.injEq] at h
          rcases h with ⟨rfl, rfl⟩
          simp [allFailedB, hatt]
  · intro net fuel vi fn fs fs' outs h
    constructor
    · intro hne
      simp only [runAcquisition, h]
      rw [if_neg (by simpa using hne)]
    · intro hnil
      cases hnil
      simp [runAcquisition, h]

/-- Witness for C6: a variant rejected with status 403 yields no outcome
and the loop simply continues with the remaining variants. -/
theorem C6_isolation_and_aggregation_witness :
    runAttempts (fun _ => .response 403 none 0) 1 "v.mp4" []
        [⟨"u", "Original", "_original"⟩] =
      runAttempts (fun _ => .response 403 none 0) 1 "v.mp4"
        [("videos/v_original.mp4", 0)] [] := by
  have h := C6_isolation_and_aggregation.1 (fun _ => .response 403 none 0) 1 "v.mp4"
      [] [("videos/v_original.mp4", 0)] ⟨"u", "Original", "_original"⟩ [] (by decide)
  exact h

section RedirectLemmas

lemma downloadVideo_redirect_step (net : String → NetEvent) (fuel : Nat)
    (fs : FS) (url fn l : String) (h : redirectTarget net url = some l) :
    downloadVideo net (fuel + 1) fs url fn =
      downloadVideo net fuel (FS.set fs (videoPath fn) 0) l fn := by
  match hnet : net url with
  | .connError => simp only [redirectTarget, hnet] at h; cases h
  | .response code none body => simp only [redirectTarget, hnet] at h; cases h
  | .response code (some l') body =>
    simp only [redirectTarget, hnet] at h
    by_cases hc : 300 ≤ code ∧ code < 400
    · rw [if_pos hc] at h
      cases h
      simp only [downloadVideo, hnet]
      rw [if_pos hc]
    · rw [if_neg hc] at h
      cases h

lemma downloadVideo_settles (net : String → NetEvent) (fuel : Nat) (fs : FS)
    (url fn : String) (h : redirectTarget net url = none) :
    ∃ r, downloadVideo net (fuel + 1) fs url fn = some r := by
  match hnet : net url with
  | .connError =>
    refine ⟨(FS.erase (FS.set fs (videoPath fn) 0) (videoPath fn), .error .connErr), ?_⟩
    simp only [downloadVideo, hnet]
  | .response code none body =>
    by_cases h200 : code = 200
    · refine ⟨(FS.set (FS.set fs (videoPath fn) 0) (videoPath fn) body,
        .ok (videoPath fn)), ?_⟩
      simp only [downloadVideo, hnet]
      rw [if_neg (by simp [h200])]
    · refine ⟨(FS.set fs (videoPath fn) 0, .error (.statusErr code)), ?_⟩
      simp only [downloadVideo, hnet]
      rw [if_pos h200]
  | .response code (some l') body =>
    simp only [redirectTarget, hnet] at h
    have hc : ¬(300 ≤ code ∧ code < 400) := by
      intro hcc
      rw [if_pos hcc] at h
      cases h
    by_cases h200 : code = 200
    · refine ⟨(FS.set (FS.set fs (videoPath fn) 0) (videoPath fn) body,
        .ok (videoPath fn)), ?_⟩
      simp only [downloadVideo, hnet]
      rw [if_neg hc, if_neg (by simp [h200])]
    · refine ⟨(FS.set fs (videoPath fn) 0, .error (.statusErr code)), ?_⟩
      simp only [downloadVideo, hnet]
      rw [if_neg hc, if_pos h200]

lemma downloadVideo_stop_of_terminates (net : String → NetEvent) (fn : String) :
    ∀ (fuel : Nat) (url : String) (fs : FS) (r : FS × Except DlErr String),
      downloadVideo net fuel fs url fn = some r →
      ∃ n, redirectTarget net (hop net n url) = none := by
  intro fuel
  induction fuel with
  | zero =>
    intro url fs r h
    cases h
  | succ fuel ih =>
    intro url fs r h
    match hrt : redirectTarget net url with
    | none => exact ⟨0, by simpa [hop] using hrt⟩
    | some l =>
      rw [downloadVideo_redirect_step net fuel fs url fn l hrt] at h
      rcases ih l _ r h with ⟨n, hn⟩
      refine ⟨n + 1, ?_⟩
      rw [hop]
      simp only [hrt]
      exact hn

lemma downloadVideo_terminates_of_stop (net : String → NetEvent) (fn : String) :
    ∀ (n : Nat) (url : String) (fs : FS),
      redirectTarget net (hop net n url) = none →
      ∃ fuel r, downloadVideo net fuel fs url fn = some r := by
  intro n
  induction n with
  | zero =>
    intro url fs h
    rcases downloadVideo_settles net 0 fs url fn (by simpa [hop] using h) with ⟨r, hr⟩
    exact ⟨1, r, hr⟩
  | succ n ih =>
    intro url fs h
    match hrt : redirectTarget net url with
    | none =>
      rcases downloadVideo_settles net 0 fs url fn hrt with ⟨r, hr⟩
      exact ⟨1, r, hr⟩
    | some l =>
      have hh : redirectTarget net (hop net n l) = none := by
        rw [hop] at h
        simpa only [hrt] using h
      rcases ih l (FS.set fs (videoPath fn) 0) hh with ⟨fuel, r, hr⟩
      refine ⟨fuel + 1, r, ?_⟩
      rw [downloadVideo_redirect_step net fuel fs url fn l hrt]
      exact hr

end RedirectLemmas

/-- A network that answers every URL with a redirect to the fixed URL
`loop` - an endless redirect chain. -/
def loopNet : String → NetEvent := fun _ => .response 302 (some "loop") 0

lemma downloadVideo_loopNet :
    ∀ (fuel : Nat) (fs : FS) (u f : String),
      downloadVideo loopNet fuel fs u f = none := by
  intro fuel
  induction fuel with
  | zero => intro fs u f; rfl
  | succ fuel ih =>
    intro fs u f
    rw [downloadVideo]
    simp only [loopNet]
    rw [if_pos (by omega)]
    exact ih _ _ _

/-- Counterexample to C7: the code has no redirect hop limit - against a
network that always redirects, `downloadVideo` never terminates, however
much fuel (recursion depth) it is given. -/
theorem C7_counterexample : ¬ downloadTerminates loopNet [] "u" "f" := by
  rintro ⟨fuel, r, hr⟩
  rw [downloadVideo_loopNet] at hr
  cases hr

/-- C7 amended: redirects are followed by re-issuing the request against
the `Location` target, but the hop count is NOT bounded: the download
terminates exactly when the redirect chain from the URL reaches, after
finitely many hops, an answer that is not a redirect-with-location. -/
theorem C7_redirects_followed_unbounded :
    (∀ (net : String → NetEvent) (fuel : Nat) (fs : FS) (url fn l : String)
        (c b : Nat),
        net url = .response c (some l) b → 300 ≤ c → c < 400 →
        downloadVideo net (fuel + 1) fs url fn =
          downloadVideo net fuel (FS.set fs (videoPath fn) 0) l fn) ∧
    (∀ (net : String → NetEvent) (fs : FS) (url fn : String),
        downloadTerminates net fs url fn ↔
          ∃ n, redirectTarget net (hop net n url) = none) := by
  constructor
  · intro net fuel fs url fn l c b hnet h1 h2
    apply downloadVideo_redirect_step
    simp only [redirectTarget, hnet]
    rw [if_pos ⟨h1, h2⟩]
  · intro net fs url fn
    constructor
    · rintro ⟨fuel, r, hr⟩
      exact downloadVideo_stop_of_terminates net fn fuel url fs r hr
    · rintro ⟨n, hn⟩
      exact downloadVideo_terminates_of_stop net fn n url fs hn

/-- Witness for C7 (amended): one concrete redirect hop is followed to
its `Location` target. -/
theorem C7_redirects_followed_unbounded_witness :
    downloadVideo (fun _ => .response 302 (some "t") 0) 1 [] "s" "f.mp4" =
      downloadVideo (fun _ => .response 302 (some "t") 0) 0
        (FS.set [] (videoPath "f.mp4") 0) "t" "f.mp4" := by
  have h := C7_redirects_followed_unbounded.1 (fun _ => .response 302 (some "t") 0)
      0 [] "s" "f.mp4" "t" 302 0 rfl (by omega) (by omega)
  exact h

/-- A network for the three-variant scenario: the original URL serves a
5000-byte body with status 200; every other URL (here the rewritten
`watermark=0` URL) is rejected with status 403. -/
def demoNet : String → NetEvent := fun u =>
  if u == "a?watermark=1" then .response 200 none 5000 else .response 403 none 0

/-- Counterexample to C8: in a run of three planned variants where
exactly one succeeds, the acquisition reports that one outcome, yet the
zero-byte files created for the two variants rejected with status 403
REMAIN on disk - the non-success, non-redirect status path of
`downloadVideo` rejects without deleting the file it has just created,
and the catch in `tryMultipleDownloads` deletes nothing either. -/
theorem C8_counterexample :
    runAcquisition demoNet 1 ⟨"a?watermark=1", "playAddr", 3⟩ "v.mp4" [] =
      some ([("videos/v_original.mp4", 5000), ("videos/v_no_watermark.mp4", 0),
             ("videos/v_full_modified.mp4", 0)],
            .ok [⟨"Original", "videos/v_original.mp4", 5000, "a?watermark=1"⟩]) ∧
    FS.lookup [("videos/v_original.mp4", 5000), ("videos/v_no_watermark.mp4", 0),
               ("videos/v_full_modified.mp4", 0)] "videos/v_no_watermark.mp4" =
      some 0 := by
  constructor
  · decide
  · decide

/-- C8 amended: a variant whose request errors deletes its file, and a
resolved artifact at or below the size threshold is deleted; but a
variant rejected with a non-success, non-redirect HTTP status leaves the
just-created zero-byte file on disk. -/
theorem C8_cleanup_on_failure (net : String → NetEvent) (fs : FS)
    (url fn : String) (fuel : Nat) :
    (net url = .connError →
        downloadVideo net (fuel + 1) fs url fn =
          some (FS.erase (FS.set fs (videoPath fn) 0) (videoPath fn),
                .error .connErr) ∧
        FS.lookup (FS.erase (FS.set fs (videoPath fn) 0) (videoPath fn))
          (videoPath fn) = none) ∧
    (∀ c b, net url = .response c none b → c ≠ 200 →
        downloadVideo net (fuel + 1) fs url fn =
          some (FS.set fs (videoPath fn) 0, .error (.statusErr c)) ∧
        FS.lookup (FS.set fs (videoPath fn) 0) (videoPath fn) = some 0) ∧
    (∀ (filename : String) (a : Attempt) (fs1 : FS) (p : String) (n : Nat),
        downloadVideo net fuel fs a.url (attemptTarget filename a) =
          some (fs1, .ok p) →
        FS.lookup fs1 p = some n → n ≤ 1024 →
        runAttempt net fuel filename fs a = some (FS.erase fs1 p, none) ∧
        FS.lookup (FS.erase fs1 p) p = none) := by
  refine ⟨?_, ?_, ?_⟩
  · intro hnet
    constructor
    · simp only [downloadVideo, hnet]
    · exact FS.lookup_erase _ _
  · intro c b hnet hc
    constructor
    · simp only [downloadVideo, hnet]
      rw [if_pos hc]
    · exact FS.lookup_set fs (videoPath fn) 0
  · intro filename a fs1 p n hdl hsz hle
    have hrun : runAttempt net fuel filename fs a = validateArtifact a fs1 p (some n) := by
      rw [runAttempt, hdl, finishAttempt, hsz]
    rw [hrun, validateArtifact, if_neg (by omega)]
    exact ⟨rfl, FS.lookup_erase fs1 p⟩

/-- Witness for C8 (amended): a 403 rejection leaves the zero-byte file
on disk. -/
theorem C8_cleanup_on_failure_witness :
    downloadVideo demoNet 1 [] "x" "f.mp4" =
      some ([("videos/f.mp4", 0)], .error (.statusErr 403)) ∧
    FS.lookup [("videos/f.mp4", 0)] "videos/f.mp4" = some 0 := by
  have h := (C8_cleanup_on_failure demoNet [] "x" "f.mp4" 0).2.1 403 0
      (by decide) (by decide)
  exact h

